import Mathlib

/-!
Shallow embedding of the FMCG analyser's reconciliation and scoring core
(`fmcg_analyzer/validator.py`, `fmcg_analyzer/data_loader.py`,
`fmcg_analyzer/scoring.py`).

Modelling conventions:
* a spreadsheet cell / pandas object-column entry is a `PyVal`
  (missing, integer, float, or string); machine floats are modelled as
  exact rationals;
* calendar dates and timestamps are rational day numbers (the code only
  ever compares dates and subtracts them, so the choice of epoch is
  irrelevant; a `datetime` cell is modelled by its day number, matching
  the `isinstance(value, datetime)` branch of `parse_date`, which
  returns the value unchanged);
* tables are lists of records; a pandas operation that can raise is
  modelled with `Option` (`none` = exception).
-/

/- Batteries seals rational arithmetic behind `@[irreducible]`; concrete
witness evaluations unfold it, so restore the default reducibility. -/
attribute [local semireducible] Rat.add Rat.sub Rat.mul Rat.inv Rat.ofScientific

/-- A raw cell as pandas presents it to the cleaning code: missing
(`None` / `NaN` / `NaT`), an integer, a float, or a string. -/
inductive PyVal where
  | vnone
  | vint (n : ℤ)
  | vfloat (q : ℚ)
  | vstr (s : String)
deriving DecidableEq

/-- Models `pd.isna` on a scalar. -/
def pyIsNa : PyVal → Bool
  | .vnone => true
  | _ => false

/-- Truncation toward zero, as Python's `int(float)` and SQLite's
`CAST(x AS INTEGER)` both do. -/
def truncQ (q : ℚ) : ℤ := if 0 ≤ q then ⌊q⌋ else -⌊-q⌋

/-- Round half to even, as Python's builtin `round` and numpy/pandas
rounding do. -/
def roundHalfEven (q : ℚ) : ℤ :=
  let f := ⌊q⌋
  let r := q - f
  if r < 1/2 then f
  else if 1/2 < r then f + 1
  else if f % 2 = 0 then f else f + 1

/-- Models `Series.round(d)`: round half to even at `d` decimal places. -/
def roundQ (q : ℚ) (d : ℕ) : ℚ := (roundHalfEven (q * 10 ^ d) : ℚ) / 10 ^ d

/-- Models Python's `str()` of a float.  For a float holding an exact
integer (the only case any identity code exercises) Python prints
`"7.0"`; non-integral floats print a shortest decimal repr, which has no
exact rational rendering and is modelled by the rational's own print. -/
def pyFloatRepr (q : ℚ) : String :=
  if q.den = 1 then toString q.num ++ ".0" else toString q

/-- Models Python's `str()` of a cell, as `Series.astype(str)` applies it
(`str(nan) = "nan"`). -/
def pyStrOf : PyVal → String
  | .vnone => "nan"
  | .vint n => toString n
  | .vfloat q => pyFloatRepr q
  | .vstr s => s

/-- Python `str.strip()` (and pandas' whitespace trimming), written on
the character list so it evaluates inside the kernel. -/
def pyTrimList (l : List Char) : List Char :=
  ((l.dropWhile Char.isWhitespace).reverse.dropWhile Char.isWhitespace).reverse

def pyTrim (s : String) : String := String.mk (pyTrimList s.data)

/-- Digit-string to number; `none` when empty or a non-digit appears. -/
def digitsToNat (l : List Char) : Option ℕ :=
  if l ≠ [] ∧ l.all (·.isDigit) then
    some (l.foldl (fun a c => a * 10 + (c.toNat - 48)) 0)
  else none

/-- Models Python's `int(s)` on a string: optional sign then digits,
surrounding whitespace tolerated; `none` models the `ValueError`. -/
def pyIntOfString (s : String) : Option ℤ :=
  match pyTrimList s.data with
  | '-' :: rest => (digitsToNat rest).map (fun n => -(n : ℤ))
  | '+' :: rest => (digitsToNat rest).map (fun n => (n : ℤ))
  | l => (digitsToNat l).map (fun n => (n : ℤ))

/-- Models Python's `float(s)` on plain decimal strings
(`"7"`, `"-3.25"`); exponent forms are outside the modelled fragment
and yield `none` like any other parse failure. -/
def pyFloatOfString (s : String) : Option ℚ :=
  let withSign : ℤ × List Char :=
    match pyTrimList s.data with
    | '-' :: r => (-1, r)
    | '+' :: r => (1, r)
    | l => (1, l)
  match withSign.2.span (· ≠ '.') with
  | (ip, []) => (digitsToNat ip).map (fun n => (withSign.1 * n : ℤ))
  | (ip, _ :: fp) =>
      match digitsToNat ip, digitsToNat fp with
      | some i, some f =>
          some ((withSign.1 : ℚ) * ((i : ℚ) + (f : ℚ) / 10 ^ fp.length))
      | _, _ => none

/-- Models Python's `float(value)` on a cell. -/
def pyFloatCoerce : PyVal → Option ℚ
  | .vnone => none
  | .vint n => some n
  | .vfloat q => some q
  | .vstr s => pyFloatOfString s

/-- validator.clean_and_trim_string: `None` for missing, otherwise
`str(value).strip()`. -/
def clean_and_trim_string (v : PyVal) : Option String :=
  if pyIsNa v then none else some (pyTrim (pyStrOf v))

/-- validator.clean_and_round_integer: `int(round(float(value)))`,
`None` on missing or parse failure (the `ValueError`/`TypeError` is
caught and turned into `None`). -/
def clean_and_round_integer (v : PyVal) : Option ℤ :=
  if pyIsNa v then none else (pyFloatCoerce v).map roundHalfEven

/-- validator.parse_date: `None` for missing; an already-typed
datetime (modelled as its numeric day value) is returned unchanged;
numeric spreadsheet encodings are modelled as their day value; strings
go through `pd.to_datetime(·, errors='coerce')`, modelled for ISO
`YYYY-MM-DD` strings, anything else coercing to `None`. -/
def daysFromCivil (y m d : ℤ) : ℤ :=
  let y2 := if m ≤ 2 then y - 1 else y
  let era := (if 0 ≤ y2 then y2 else y2 - 399) / 400
  let yoe := y2 - era * 400
  let mp := (m + 9) % 12
  let doy := (153 * mp + 2) / 5 + d - 1
  let doe := yoe * 365 + yoe / 4 - yoe / 100 + doy
  era * 146097 + doe - 719468

/-- Splits a character list at a separator character. -/
def splitOnChar (c : Char) : List Char → List Char → List (List Char)
  | [], acc => [acc.reverse]
  | x :: xs, acc =>
      if x = c then acc.reverse :: splitOnChar c xs []
      else splitOnChar c xs (x :: acc)

/-- Parses `"YYYY-MM-DD"`; the modelled fragment of `pd.to_datetime`
on strings. -/
def parseIsoDate (s : String) : Option ℤ :=
  match splitOnChar '-' (pyTrimList s.data) [] with
  | [ys, ms, ds] =>
      match digitsToNat ys, digitsToNat ms, digitsToNat ds with
      | some y, some m, some d =>
          if 1 ≤ m ∧ m ≤ 12 ∧ 1 ≤ d ∧ d ≤ 31 then
            some (daysFromCivil (y : ℤ) (m : ℤ) (d : ℤ))
          else none
      | _, _, _ => none
  | _ => none

def parse_date (v : PyVal) : Option ℚ :=
  match v with
  | .vnone => none
  | .vint n => some (n : ℚ)
  | .vfloat q => some q
  | .vstr s => (parseIsoDate s).map (fun d => (d : ℚ))

/-!
Identity standardization, `data_loader.load_clean_and_merge_data`
STEP 3B (lines 155-163).  The credit side runs
`fillna(-1).astype(int).astype(str)`; the sales side runs
`astype(str)` only.
-/

/-- Models `Series.fillna(d)` on one cell. -/
def pyFillna (v : PyVal) (d : ℤ) : PyVal :=
  if pyIsNa v then .vint d else v

/-- Models `astype(int)` on one object cell; `none` models the raised
`ValueError` (e.g. on a non-integer string), which in STEP 3B is not
caught by any `try` block. -/
def pyAstypeInt : PyVal → Option ℤ
  | .vnone => none
  | .vint n => some n
  | .vfloat q => some (truncQ q)
  | .vstr s => pyIntOfString s

/-- Credit-side code standardization (data_loader.py line 159):
`fillna(-1).astype(int).astype(str)` on one cell. -/
def creditCodeStd (v : PyVal) : Option String :=
  (pyAstypeInt (pyFillna v (-1))).map toString

/-- Sales-side code standardization (data_loader.py line 163):
`astype(str)` on one cell. -/
def salesCodeStd (v : PyVal) : String := pyStrOf v

/-!
Generic list machinery shared by the loader and the scorer.
-/

/-- Elementwise fallible map; `none` as soon as one element fails,
modelling a column operation that raises on the first bad element. -/
def mapO (f : α → Option β) : List α → Option (List β)
  | [] => some []
  | a :: l =>
      match f a, mapO f l with
      | some b, some l2 => some (b :: l2)
      | _, _ => none

/-- Models `DataFrame.drop_duplicates(subset, keep='first')`: keep the
first row bearing each key, in order. -/
def dedupByKeepFirst [DecidableEq κ] (key : α → κ) : List α → List α
  | [] => []
  | x :: xs => x :: (dedupByKeepFirst key xs).filter (fun y => key y ≠ key x)

/-- Models `DataFrame.drop_duplicates(subset, keep='last')`: keep the
last row bearing each key, in order. -/
def dedupByKeepLast [DecidableEq κ] (key : α → κ) (l : List α) : List α :=
  (dedupByKeepFirst key l.reverse).reverse

/-- Fold minimum with the head as seed (`0` for the empty list, which
the code never reaches on the paths that use it). -/
def minQ : List ℚ → ℚ
  | [] => 0
  | x :: t => t.foldl min x

/-- Fold maximum with the head as seed. -/
def maxQ : List ℚ → ℚ
  | [] => 0
  | x :: t => t.foldl max x

/-- Fold maximum over integers, `0` for the empty list
(models SQL `COALESCE(MAX(col), 0)` over non-null values). -/
def maxZCoalesce : List ℤ → ℤ
  | [] => 0
  | x :: t => t.foldl max x

/-- SQL `MAX` over a possibly empty list (NULL for no rows). -/
def maxQO (l : List ℚ) : Option ℚ :=
  match l with
  | [] => none
  | x :: t => some (t.foldl max x)

/-- SQL / pandas `sum` over a nullable column: nulls are skipped and an
all-null input is NULL (SQL `SUM`); pandas `groupby(...).sum()` instead
yields `0` there, which its caller models with `Option.getD 0`. -/
def sumZO (l : List (Option ℤ)) : Option ℤ :=
  match l.filterMap id with
  | [] => none
  | xs => some xs.sum

theorem mapO_eq_some_of_forall {f : α → Option β} {P : β → Prop} :
    ∀ {l : List α}, (∀ a ∈ l, ∃ b, f a = some b ∧ P b) →
      ∃ l2, mapO f l = some l2 ∧ l2.length = l.length ∧ ∀ b ∈ l2, P b := by
  intro l
  induction l with
  | nil => intro _; exact ⟨[], rfl, rfl, by simp⟩
  | cons a t ih =>
      intro h
      obtain ⟨b, hb, hPb⟩ := h a (by simp)
      obtain ⟨l2, hl2, hlen, hall⟩ := ih (fun x hx => h x (by simp [hx]))
      refine ⟨b :: l2, ?_, by simp [hlen], ?_⟩
      · simp [mapO, hb, hl2]
      · intro c hc
        rcases List.mem_cons.mp hc with h1 | h2
        · exact h1 ▸ hPb
        · exact hall c h2

theorem mem_of_mem_dedupByKeepFirst [DecidableEq κ] {key : α → κ} :
    ∀ {l : List α} {a : α}, a ∈ dedupByKeepFirst key l → a ∈ l := by
  intro l
  induction l with
  | nil => intro a h; simp [dedupByKeepFirst] at h
  | cons x t ih =>
      intro a h
      simp only [dedupByKeepFirst, List.mem_cons] at h
      rcases h with h | h
      · simp [h]
      · exact List.mem_cons_of_mem _ (ih (List.mem_of_mem_filter h))


theorem filter_dedupByKeepFirst_eq [DecidableEq κ] {key : α → κ} :
    ∀ (l : List α) (k : κ),
      (dedupByKeepFirst key l).filter (fun a => key a = k)
        = (l.filter (fun a => key a = k)).head?.toList := by
  intro l
  induction l with
  | nil => intro k; simp [dedupByKeepFirst]
  | cons x t ih =>
      intro k
      by_cases hx : key x = k
      · subst hx
        have hnil : (dedupByKeepFirst key t).filter
            (fun a => decide (key a = key x) && decide (¬ key a = key x)) = [] := by
          refine List.filter_eq_nil_iff.mpr ?_
          intro a _
          by_cases h : key a = key x <;> simp [h]
        simp only [dedupByKeepFirst, List.filter_cons, List.filter_filter, hnil]
        simp
      · have hcong : (dedupByKeepFirst key t).filter
            (fun a => decide (key a = k) && decide (¬ key a = key x))
            = (dedupByKeepFirst key t).filter (fun a => decide (key a = k)) := by
          refine List.filter_congr ?_
          intro a _
          by_cases h : key a = k
          · have hax : ¬ key a = key x := by
              intro he
              exact hx (by rw [← he]; exact h)
            have hk : ¬ k = key x := fun he => hx he.symm
            simp [h, hax, hk]
          · simp [h]
        simp only [dedupByKeepFirst, List.filter_cons, List.filter_filter, hcong, hx]
        simp only [ih, List.filter_cons, hx]
        simp

theorem length_filter_dedupByKeepFirst_le_one [DecidableEq κ] {key : α → κ}
    (l : List α) (k : κ) :
    ((dedupByKeepFirst key l).filter (fun a => key a = k)).length ≤ 1 := by
  rw [filter_dedupByKeepFirst_eq]
  cases (l.filter (fun a => key a = k)).head? <;> simp

theorem foldl_min_le_seed : ∀ (t : List ℚ) (a : ℚ), t.foldl min a ≤ a := by
  intro t
  induction t with
  | nil => intro a; simp
  | cons b t2 ih =>
      intro a
      simpa using le_trans (ih (min a b)) (min_le_left a b)

theorem foldl_min_le_mem : ∀ (t : List ℚ) (a x : ℚ), x ∈ t → t.foldl min a ≤ x := by
  intro t
  induction t with
  | nil => intro a x h; simp at h
  | cons b t2 ih =>
      intro a x h
      rcases List.mem_cons.mp h with h1 | h2
      · simpa [h1] using le_trans (foldl_min_le_seed t2 (min a b)) (min_le_right a b)
      · simpa using ih (min a b) x h2

theorem minQ_le_of_mem {l : List ℚ} {x : ℚ} (h : x ∈ l) : minQ l ≤ x := by
  cases l with
  | nil => simp at h
  | cons a t =>
      rcases List.mem_cons.mp h with h1 | h2
      · simpa [minQ, h1] using foldl_min_le_seed t a
      · exact foldl_min_le_mem t a x h2

theorem seed_le_foldl_max : ∀ (t : List ℚ) (a : ℚ), a ≤ t.foldl max a := by
  intro t
  induction t with
  | nil => intro a; simp
  | cons b t2 ih =>
      intro a
      simpa using le_trans (le_max_left a b) (ih (max a b))

theorem mem_le_foldl_max : ∀ (t : List ℚ) (a x : ℚ), x ∈ t → x ≤ t.foldl max a := by
  intro t
  induction t with
  | nil => intro a x h; simp at h
  | cons b t2 ih =>
      intro a x h
      rcases List.mem_cons.mp h with h1 | h2
      · simpa [h1] using le_trans (le_max_right a b) (seed_le_foldl_max t2 (max a b))
      · simpa using ih (max a b) x h2

theorem le_maxQ_of_mem {l : List ℚ} {x : ℚ} (h : x ∈ l) : x ≤ maxQ l := by
  cases l with
  | nil => simp at h
  | cons a t =>
      rcases List.mem_cons.mp h with h1 | h2
      · simpa [maxQ, h1] using seed_le_foldl_max t a
      · exact mem_le_foldl_max t a x h2

/-!
Record types of the loader pipeline (`data_loader.load_clean_and_merge_data`).
The credit file's optional `customer_name` / `route` columns are omitted:
they are dropped or shadowed before every step any claim touches.
-/

/-- A raw row of the credit-balance extract after column rename
(columns `customer_code`, `balance`, `last_invoice_date`). -/
structure RawCreditRow where
  customer_code : PyVal
  balance : PyVal
  last_invoice_date : PyVal
deriving DecidableEq

/-- A credit row after STEP 1 cleaning (code deliberately untouched). -/
structure CreditRow1 where
  customer_code : PyVal
  balance : Option ℤ
  last_invoice_date : Option ℚ
deriving DecidableEq

/-- A credit row after STEP 3B code standardization. -/
structure CreditRow2 where
  customer_code : String
  balance : Option ℤ
  last_invoice_date : Option ℚ
deriving DecidableEq

/-- A raw row of a sales extract after column rename. -/
structure RawSalesRow where
  invoice_number : PyVal
  delivery_date : PyVal
  booker_name : PyVal
  customer_code : PyVal
  customer_name : PyVal
  product_name : PyVal
  quantity : PyVal
  amount : PyVal
  company : PyVal
  route : PyVal
deriving DecidableEq

/-- A sales row after STEP 3 cleaning (`customer_code` still raw). -/
structure SalesRow1 where
  invoice_number : Option String
  delivery_date : Option ℚ
  booker_name : Option String
  customer_code : PyVal
  customer_name : Option String
  product_name : Option String
  quantity : Option ℤ
  amount : Option ℤ
  company : Option String
  route : Option String
deriving DecidableEq

/-- A sales row after STEP 3B code standardization. -/
structure SalesRow2 where
  invoice_number : Option String
  delivery_date : Option ℚ
  booker_name : Option String
  customer_code : String
  customer_name : Option String
  product_name : Option String
  quantity : Option ℤ
  amount : Option ℤ
  company : Option String
  route : Option String
deriving DecidableEq

/-- A raw row of the margin extract after column rename. -/
structure RawMarginRow where
  invoice_number : PyVal
  amount_from_margin : PyVal
  profit : PyVal
deriving DecidableEq

/-- A margin row after STEP 7 cleaning. -/
structure MarginRow1 where
  invoice_number : Option String
  amount_from_margin : Option ℤ
  profit : Option ℤ
deriving DecidableEq

/-!
STEP 1 credit cleaning: per-dtype cleaning (except `customer_code`),
balance sign inversion, dedup by raw code keeping the last row.
pandas `duplicated()` hashes cell values, under which an integer equals
the float of the same value and missing values equal each other, so the
dedup key maps a `PyVal` to that equivalence class.
-/

/-- pandas hash-equality class of a cell (`7 == 7.0`, `NaN` groups with
`NaN` in `drop_duplicates`). -/
inductive PyKey where
  | knan
  | knum (q : ℚ)
  | kstr (s : String)
deriving DecidableEq

def pyKeyOf : PyVal → PyKey
  | .vnone => .knan
  | .vint n => .knum n
  | .vfloat q => .knum q
  | .vstr s => .kstr s

/-- STEP 1 (data_loader.py lines 61-79): clean `balance` and
`last_invoice_date`, invert the balance sign, dedup by `customer_code`
keeping the last occurrence. -/
def creditClean (rows : List RawCreditRow) : List CreditRow1 :=
  dedupByKeepLast (fun r => pyKeyOf r.customer_code)
    (rows.map (fun r =>
      { customer_code := r.customer_code
        balance := (clean_and_round_integer r.balance).map (fun b => -b)
        last_invoice_date := parse_date r.last_invoice_date }))

/-- STEP 3 (lines 133-141): clean every sales column except
`customer_code` per its declared dtype. -/
def salesClean (rows : List RawSalesRow) : List SalesRow1 :=
  rows.map (fun r =>
    { invoice_number := clean_and_trim_string r.invoice_number
      delivery_date := parse_date r.delivery_date
      booker_name := clean_and_trim_string r.booker_name
      customer_code := r.customer_code
      customer_name := clean_and_trim_string r.customer_name
      product_name := clean_and_trim_string r.product_name
      quantity := clean_and_round_integer r.quantity
      amount := clean_and_round_integer r.amount
      company := clean_and_trim_string r.company
      route := clean_and_trim_string r.route })

/-- STEP 3B credit side (lines 159-160): standardize every code
(`none` = the uncaught `ValueError` of `astype(int)`), then drop the
`"-1"` rows that were `NaN`. -/
def creditStdRows (rows : List CreditRow1) : Option (List CreditRow2) :=
  (mapO (fun r => (creditCodeStd r.customer_code).map (fun c =>
      { customer_code := c
        balance := r.balance
        last_invoice_date := r.last_invoice_date : CreditRow2 })) rows).map
    (fun l => l.filter (fun r => r.customer_code ≠ "-1"))

/-- STEP 3B sales side (line 163): `astype(str)` on every code. -/
def salesStdRows (rows : List SalesRow1) : List SalesRow2 :=
  rows.map (fun r =>
    { invoice_number := r.invoice_number
      delivery_date := r.delivery_date
      booker_name := r.booker_name
      customer_code := salesCodeStd r.customer_code
      customer_name := r.customer_name
      product_name := r.product_name
      quantity := r.quantity
      amount := r.amount
      company := r.company
      route := r.route })

/-!
STEP 4 (lines 188-193): sort by `delivery_date` descending, drop
duplicate `(invoice_number, product_name)` pairs keeping the first,
restore ascending order.  pandas puts missing dates last under both
sort directions (`na_position='last'`), and `drop_duplicates` treats
missing keys as equal.  The claims it decides involve no ties, so a
stable insertion sort is a faithful model of the unstable quicksort.
-/

def dateDescB (a b : SalesRow2) : Bool :=
  match a.delivery_date, b.delivery_date with
  | some x, some y => decide (y ≤ x)
  | some _, none => true
  | none, some _ => false
  | none, none => true

def dateAscB (a b : SalesRow2) : Bool :=
  match a.delivery_date, b.delivery_date with
  | some x, some y => decide (x ≤ y)
  | some _, none => true
  | none, some _ => false
  | none, none => true

def dateDescRel (a b : SalesRow2) : Prop := dateDescB a b = true

def dateAscRel (a b : SalesRow2) : Prop := dateAscB a b = true

instance : DecidableRel dateDescRel :=
  fun a b => inferInstanceAs (Decidable (dateDescB a b = true))

instance : DecidableRel dateAscRel :=
  fun a b => inferInstanceAs (Decidable (dateAscB a b = true))

instance : IsTotal SalesRow2 dateDescRel where
  total := by
    intro a b
    unfold dateDescRel dateDescB
    cases a.delivery_date <;> cases b.delivery_date <;> simp
    exact le_total _ _

instance : IsTrans SalesRow2 dateDescRel where
  trans := by
    intro a b c
    unfold dateDescRel dateDescB
    cases a.delivery_date <;> cases b.delivery_date <;> cases c.delivery_date <;> simp
    exact fun h1 h2 => le_trans h2 h1

instance : IsTotal SalesRow2 dateAscRel where
  total := by
    intro a b
    unfold dateAscRel dateAscB
    cases a.delivery_date <;> cases b.delivery_date <;> simp
    exact le_total _ _

instance : IsTrans SalesRow2 dateAscRel where
  trans := by
    intro a b c
    unfold dateAscRel dateAscB
    cases a.delivery_date <;> cases b.delivery_date <;> cases c.delivery_date <;> simp
    exact fun h1 h2 => le_trans h1 h2

/-- The `(invoice_number, product_name)` dedup key. -/
def salesKey (r : SalesRow2) : Option String × Option String :=
  (r.invoice_number, r.product_name)

/-- STEP 4: remove duplicate invoice lines. -/
def dedupSales (rows : List SalesRow2) : List SalesRow2 :=
  List.insertionSort dateAscRel
    (dedupByKeepFirst salesKey (List.insertionSort dateDescRel rows))

/-!
STEP 6 (lines 219-235): aggregate sales per customer.  pandas `groupby`
skips nulls inside `sum` (all-null sums to 0), `max` yields NaT on an
all-null group, `nunique` ignores nulls, and `first` takes the first
non-null value.  Key order is irrelevant to every claim; groups are
listed in first-occurrence order.
-/

/-- One row of `sales_aggregated`. -/
structure AggRow where
  customer_code : String
  total_sales_amount : ℤ
  total_quantity : ℤ
  last_delivery_date : Option ℚ
  invoice_count : ℕ
  customer_name : Option String
  route : Option String
  booker_name : Option String
  company : Option String
deriving DecidableEq

def mkAggRow (k : String) (g : List SalesRow2) : AggRow :=
  { customer_code := k
    total_sales_amount := ((g.map (·.amount)).filterMap id).sum
    total_quantity := ((g.map (·.quantity)).filterMap id).sum
    last_delivery_date := maxQO ((g.map (·.delivery_date)).filterMap id)
    invoice_count := ((g.map (·.invoice_number)).filterMap id).dedup.length
    customer_name := ((g.map (·.customer_name)).filterMap id).head?
    route := ((g.map (·.route)).filterMap id).head?
    booker_name := ((g.map (·.booker_name)).filterMap id).head?
    company := ((g.map (·.company)).filterMap id).head? }

def salesAggregate (rows : List SalesRow2) : List AggRow :=
  (dedupByKeepFirst id (rows.map (·.customer_code))).map
    (fun k => mkAggRow k (rows.filter (fun r => r.customer_code = k)))

/-!
STEP 7 (lines 255-263): clean the margin data, dedup by invoice number
keeping the last row.
-/

def marginClean (rows : List RawMarginRow) : List MarginRow1 :=
  dedupByKeepLast (fun r => r.invoice_number)
    (rows.map (fun r =>
      { invoice_number := clean_and_trim_string r.invoice_number
        amount_from_margin := clean_and_round_integer r.amount_from_margin
        profit := clean_and_round_integer r.profit }))

/-!
STEP 8 + STEP 10 + STEP 11 (lines 287-296, 334-340, 363-370): the
customer summary `final_df`.  Credit is the left/base relation of the
merge; a pandas left merge emits one output row per matching right row
and one null-filled row when there is none.
-/

/-- One row of `final_df` after default filling and the days-since
computation. -/
structure SummaryRow where
  customer_code : String
  balance : Option ℤ
  last_invoice_date : Option ℚ
  total_sales_amount : ℤ
  total_quantity : ℤ
  last_delivery_date : Option ℚ
  invoice_count : ℕ
  route : String
  booker_name : String
  company : String
  days_since_last_sale : ℤ
deriving DecidableEq

/-- Models `(today - ts).days` on timestamps: floor of the day
difference (Python `timedelta.days` floors). -/
def daysBetween (today d : ℚ) : ℤ := ⌊today - d⌋

def mkSummaryRow (c : CreditRow2) (a : Option AggRow) (today : ℚ) : SummaryRow :=
  let lastDelivery := (a.map (·.last_delivery_date)).getD none
  { customer_code := c.customer_code
    balance := c.balance
    last_invoice_date := c.last_invoice_date
    total_sales_amount := (a.map (·.total_sales_amount)).getD 0
    total_quantity := (a.map (·.total_quantity)).getD 0
    last_delivery_date := lastDelivery
    invoice_count := (a.map (·.invoice_count)).getD 0
    route := ((a.map (·.route)).getD none).getD "N/A"
    booker_name := ((a.map (·.booker_name)).getD none).getD "N/A"
    company := ((a.map (·.company)).getD none).getD "N/A"
    days_since_last_sale :=
      match lastDelivery with
      | some d => daysBetween today d
      | none =>
          match c.last_invoice_date with
          | some d => daysBetween today d
          | none => 999 }

def customerSummary (credit : List CreditRow2) (agg : List AggRow) (today : ℚ) :
    List SummaryRow :=
  credit.flatMap (fun c =>
    match agg.filter (fun a => a.customer_code = c.customer_code) with
    | [] => [mkSummaryRow c none today]
    | ms => ms.map (fun a => mkSummaryRow c (some a) today))

/-!
STEP 9 + STEP 10 (lines 304-350): the detailed transaction table
`sales_detailed`: left-join margin onto sales lines by invoice number
(null keys never match in a pandas merge), left-join the credit balance
and `last_invoice_date` by customer code, fill missing profit and
balance with 0, drop `amount_from_margin`.
-/

/-- One row of `sales_detailed`, the table persisted to the database. -/
structure DetailRow where
  invoice_number : Option String
  delivery_date : Option ℚ
  booker_name : Option String
  customer_code : String
  customer_name : Option String
  product_name : Option String
  quantity : Option ℤ
  amount : Option ℤ
  company : Option String
  route : Option String
  profit : ℤ
  balance : ℤ
  last_invoice_date : Option ℚ
deriving DecidableEq

def mkDetailRow (s : SalesRow2) (m : Option MarginRow1) (c : Option CreditRow2) :
    DetailRow :=
  { invoice_number := s.invoice_number
    delivery_date := s.delivery_date
    booker_name := s.booker_name
    customer_code := s.customer_code
    customer_name := s.customer_name
    product_name := s.product_name
    quantity := s.quantity
    amount := s.amount
    company := s.company
    route := s.route
    profit := ((m.map (·.profit)).getD none).getD 0
    balance := ((c.map (·.balance)).getD none).getD 0
    last_invoice_date := (c.map (·.last_invoice_date)).getD none }

/-- Equi-join predicate on nullable invoice numbers: null never joins. -/
def invoiceJoinB (mi si : Option String) : Bool :=
  match mi, si with
  | some a, some b => decide (a = b)
  | _, _ => false

def salesDetailed (sales : List SalesRow2) (margin : List MarginRow1)
    (credit : List CreditRow2) : List DetailRow :=
  sales.flatMap (fun s =>
    let ms := margin.filter (fun m => invoiceJoinB m.invoice_number s.invoice_number)
    let withMargin : List (Option MarginRow1) :=
      match ms with
      | [] => [none]
      | _ => ms.map some
    withMargin.flatMap (fun m =>
      match credit.filter (fun c => c.customer_code = s.customer_code) with
      | [] => [mkDetailRow s m none]
      | cs => cs.map (fun c => mkDetailRow s m (some c))))

/-!
The whole of `load_clean_and_merge_data` and `update_database`.
-/

/-- The dynamically-typed value `load_clean_and_merge_data` can produce:
`exn` models an uncaught exception escaping the function, `noneResult`
the explicit `return None` of the failure paths through STEP 3B, and
`table` the `return sales_detailed` of line 417.  The `pair` constructor
exists only to state the spec's contract
`reconcile(...) -> (CustomerSummary[], TransactionDetail[])`
(spec section 4.6); the source never constructs it. -/
inductive LoaderOutput where
  | exn
  | noneResult
  | table (rows : List DetailRow)
  | pair (summary : List SummaryRow) (detail : List DetailRow)
deriving DecidableEq

def LoaderOutput.isPair : LoaderOutput → Bool
  | .pair _ _ => true
  | _ => false

def LoaderOutput.isTable : LoaderOutput → Bool
  | .table _ => true
  | _ => false

/-- The inputs of one run: each source file is `none` when missing or
unreadable (the caught `FileNotFoundError` / read `Exception`), and
`today` is `datetime.now()` / SQLite `JULIANDAY('now')` as a day
number. -/
structure LoaderInputs where
  credit : Option (List RawCreditRow)
  sales : Option (List RawSalesRow)
  margin : Option (List RawMarginRow)
  today : ℚ

/-- Do the standardized credit and sales identity sets intersect
(STEP 3B's `immediate_matches` test, lines 171-176)? -/
def codesIntersect (credit : List CreditRow2) (sales : List SalesRow2) : Bool :=
  credit.any (fun c => sales.any (fun s => s.customer_code = c.customer_code))

/-- data_loader.load_clean_and_merge_data, STEP 1 through the
`return sales_detailed` of line 417.  `final_df` (the customer summary)
is computed by the source but not returned; `customerSummary` is that
internal computation. -/
def load_clean_and_merge_data (inp : LoaderInputs) : LoaderOutput :=
  match inp.credit with
  | none => .noneResult
  | some creditRaw =>
    match inp.sales with
    | none => .noneResult
    | some salesRaw =>
      let credit1 := creditClean creditRaw
      let sales1 := salesClean salesRaw
      match creditStdRows credit1 with
      | none => .exn
      | some credit2 =>
        let sales2 := salesStdRows sales1
        if codesIntersect credit2 sales2 then
          let sales3 := dedupSales sales2
          let agg := salesAggregate sales3
          let marginRows :=
            match inp.margin with
            | none => ([] : List MarginRow1)
            | some m => marginClean m
          let _summary := customerSummary credit2 agg inp.today
          .table (salesDetailed sales3 marginRows credit2)
        else .noneResult

/-- data_loader.update_database: the persisted ledger is an
`Option (List DetailRow)` (`none` = no database yet); the result is
`none` when an exception escapes, otherwise the new ledger state and
the returned boolean. -/
def update_database (inp : LoaderInputs) (db : Option (List DetailRow)) :
    Option (Option (List DetailRow) × Bool) :=
  match load_clean_and_merge_data inp with
  | .exn => none
  | .noneResult => some (db, false)
  | .table rows => some (some rows, true)
  | .pair _ _ => none

/-!
scoring.create_score (scoring.py lines 218-234): 1-5 quintile scores.
`pd.qcut` / `pd.cut` are modelled exactly on rationals:
* `Series.rank(method='first')`: ascending 1-based ranks, ties broken
  by position;
* `pd.cut(data, bins=m)`: `m` equal-width intervals over
  `[min, max]`, the left edge nudged down by 0.1% of the range
  (both edges nudged by 0.1% of their magnitude, or 0.001 at zero,
  when `min == max`), values assigned to half-open intervals
  `(e_i, e_i+1]` with the lowest closed;
* `pd.qcut(data, 5)`: edges at the linearly-interpolated quantiles
  `0, 0.2, 0.4, 0.6, 0.8, 1`; with `duplicates='drop'` a duplicated
  edge shrinks the bin count, and the supplied 5 labels then raise the
  `ValueError` that create_score catches, falling back to `pd.cut`
  with 5 bins on the ranks;
* `.astype(int)` on the categorical result raises on any value outside
  every bin, modelled by `Option`.
-/

/-- Models `Series.rank(method='first')`. -/
def rankFirst (xs : List ℚ) : List ℚ :=
  (List.range xs.length).map (fun j =>
    (1 : ℚ) + (xs.countP (fun y => decide (y < xs.getD j 0)) : ℕ)
      + ((xs.take j).countP (fun y => decide (y = xs.getD j 0)) : ℕ))

/-- Models `Series.nunique()`. -/
def nuniqueQ (xs : List ℚ) : ℕ := xs.dedup.length

/-- Models `np.linspace lo hi (m+1)`. -/
def linspaceQ (lo hi : ℚ) (m : ℕ) : List ℚ :=
  (List.range (m + 1)).map (fun (i : ℕ) => lo + (hi - lo) * (i : ℚ) / (m : ℚ))

/-- The bin edges `pd.cut(xs, bins=m)` computes. -/
def cutIntBins (xs : List ℚ) (m : ℕ) : List ℚ :=
  let mn := minQ xs
  let mx := maxQ xs
  if mn = mx then
    linspaceQ (mn - (if mn = 0 then 1/1000 else |mn| / 1000))
      (mx + (if mx = 0 then 1/1000 else |mx| / 1000)) m
  else
    match linspaceQ mn mx m with
    | [] => []
    | e :: rest => (e - (mx - mn) / 1000) :: rest

/-- Linearly-interpolated quantile of `xs` at `q ∈ [0, 1]`
(pandas `interpolation='linear'`). -/
def quantileOf (xs : List ℚ) (q : ℚ) : ℚ :=
  let sorted := List.insertionSort (· ≤ ·) xs
  let n := sorted.length
  if n = 0 then 0
  else
    let pos := q * ((n : ℚ) - 1)
    let i := (⌊pos⌋).toNat
    let frac := pos - (⌊pos⌋ : ℚ)
    let lower := sorted.getD i 0
    let upper := sorted.getD (min (i + 1) (n - 1)) 0
    lower + frac * (upper - lower)

/-- The bin edges `pd.qcut(xs, 5)` computes. -/
def quantileEdges (xs : List ℚ) : List ℚ :=
  [quantileOf xs 0, quantileOf xs (1/5), quantileOf xs (2/5),
   quantileOf xs (3/5), quantileOf xs (4/5), quantileOf xs 1]

/-- Bin index of `x` for interval edges `edges`: `none` (a NaN
categorical, raising in `astype(int)`) when `x` lies outside
`[first edge, last edge]`, otherwise the number of interior edges
strictly below `x` (for monotone edges this is exactly pandas'
right-closed interval assignment with `include_lowest=True`). -/
def binAssign (edges : List ℚ) (x : ℚ) : Option ℕ :=
  if x < edges.headD 0 ∨ edges.getLastD 0 < x then none
  else some (edges.tail.countP (fun e => decide (e < x)))

/-- scoring.create_score: 1-5 quintile scores for one column over the
whole population; `none` models an uncaught exception.  In the
`nunique < 5`, `reverse=True` branch the source (scoring.py line 222)
computes `labels=range(5, 5-min(series.nunique()), -1)`: the
single-argument builtin `min` of an integer raises `TypeError` before
`pd.cut` even runs, and nothing catches it (the `try` below only
covers the `nunique >= 5` path and only `ValueError`), so that branch
is `none`. -/
def create_score (xs : List ℚ) (reverse : Bool) : Option (List ℤ) :=
  let n := nuniqueQ xs
  if n < 5 then
    if reverse then none
    else
      let m := min n 5
      let labels : List ℤ := (List.range m).map (fun (i : ℕ) => (i : ℤ) + 1)
      let ranks := rankFirst xs
      let edges := cutIntBins ranks m
      mapO (fun r => (binAssign edges r).bind (fun i => labels[i]?)) ranks
  else
    let series := if reverse then xs else rankFirst xs
    let edges := quantileEdges series
    let labels : List ℤ := if reverse then [5, 4, 3, 2, 1] else [1, 2, 3, 4, 5]
    if edges.dedup.length = 6 then
      mapO (fun v => (binAssign edges v).bind (fun i => labels[i]?)) series
    else
      let ranks := rankFirst xs
      let edges2 := cutIntBins ranks 5
      mapO (fun r => (binAssign edges2 r).bind (fun i => labels[i]?)) ranks

/-!
scoring.get_customer_scores (lines 44-212).  The SQL query runs over
the persisted `sales_data` table (a `List DetailRow`):

* `invoice_level`: `SELECT DISTINCT customer_code, customer_name,
  invoice_number, delivery_date, profit, balance ... WHERE
  delivery_date IS NOT NULL` — note the tuple includes
  `delivery_date`, so an invoice whose lines carry different delivery
  dates yields several rows;
* `product_aggregates`: per-(code, name) sums of amount and quantity
  over non-null-date rows;
* the outer query joins the two on `customer_code`, groups by
  (name, code), and keeps groups with positive total amount.

SQL's `SELECT DISTINCT` / `GROUP BY` treat NULLs as equal, and the
bare column `p.total_amount` inside the aggregate is taken from the
group's first join row (SQLite leaves the choice of row unspecified;
every claim has one aggregate row per code, where the choice is
immaterial).
-/

/-- One row of the `invoice_level` CTE. -/
structure ILRow where
  customer_code : String
  customer_name : Option String
  invoice_number : Option String
  delivery_date : ℚ
  profit : ℤ
  balance : ℤ
deriving DecidableEq

/-- One row of the `product_aggregates` CTE. -/
structure PARow where
  customer_code : String
  customer_name : Option String
  total_amount : Option ℤ
  total_quantity : Option ℤ
deriving DecidableEq

def invoiceLevel (fr : List DetailRow) : List ILRow :=
  dedupByKeepFirst id (fr.filterMap (fun r =>
    match r.delivery_date with
    | some d => some { customer_code := r.customer_code
                       customer_name := r.customer_name
                       invoice_number := r.invoice_number
                       delivery_date := d
                       profit := r.profit
                       balance := r.balance }
    | none => none))

def productAgg (fr : List DetailRow) : List PARow :=
  (dedupByKeepFirst id (fr.map (fun r => (r.customer_code, r.customer_name)))).map
    (fun k =>
      let g := fr.filter (fun r => (r.customer_code, r.customer_name) = k)
      { customer_code := k.1
        customer_name := k.2
        total_amount := sumZO (g.map (·.amount))
        total_quantity := sumZO (g.map (·.quantity)) })

/-- One row of the query result, before the pandas post-processing. -/
structure BaseRec where
  customer_code : String
  customer_name : Option String
  recency : ℤ
  frequency : ℕ
  monetary_raw : Option ℤ
  total_profit : ℤ
  balance : ℤ
  days_active : ℚ
deriving DecidableEq

def mkBaseRec (k : Option String × String) (g : List (ILRow × PARow))
    (todayJD : ℚ) : BaseRec :=
  let dates := g.map (fun ip => ip.1.delivery_date)
  { customer_code := k.2
    customer_name := k.1
    recency := truncQ (todayJD - maxQ dates)
    frequency := ((g.map (fun ip => ip.1.invoice_number)).filterMap id).dedup.length
    monetary_raw := match g with
      | [] => none
      | ip :: _ => ip.2.total_amount
    total_profit := (g.map (fun ip => ip.1.profit)).sum
    balance := maxZCoalesce (g.map (fun ip => ip.1.balance))
    days_active := (truncQ (maxQ dates - minQ dates) : ℚ) }

/-- The query rows: join, group by (name, code), `HAVING
p.total_amount > 0` (a NULL total fails the comparison). -/
def queryBase (rows : List DetailRow) (todayJD : ℚ) : List BaseRec :=
  let fr := rows.filter (fun r => r.delivery_date.isSome)
  let il := invoiceLevel fr
  let pa := productAgg fr
  let pairs := il.flatMap (fun i =>
    (pa.filter (fun p => p.customer_code = i.customer_code)).map (fun p => (i, p)))
  let keys := (dedupByKeepFirst
      (fun ip => (ip.1.customer_name, ip.1.customer_code)) pairs).map
    (fun ip => (ip.1.customer_name, ip.1.customer_code))
  (keys.map (fun k => mkBaseRec k
      (pairs.filter (fun ip => (ip.1.customer_name, ip.1.customer_code) = k))
      todayJD)).filter
    (fun b => match b.monetary_raw with
      | some v => decide (0 < v)
      | none => false)

/-!
Business metrics and per-row scores (scoring.py lines 119-200,
236-316).  `np.where(cond, a, b)` selects per row; division only ever
happens under a positivity guard.
-/

/-- Line 132: `weekly_sales = monetary_value / days_active * 7`
(`days_active` already clipped to at least 7, so never zero). -/
def weeklySalesOf (monetary : ℤ) (daysActive : ℚ) : ℚ :=
  (monetary : ℚ) / daysActive * 7

/-- Lines 135-140: `dso = np.where(weekly_sales > 0 and balance > 0,
balance / weekly_sales * 7, 0)` then `.clip(lower=0, upper=999)`. -/
def dsoOf (weekly balance : ℚ) : ℚ :=
  min (max (if 0 < weekly ∧ 0 < balance then balance / weekly * 7 else 0) 0) 999

/-- Lines 144-148: profit margin percentage. -/
def profitMarginPct (totalProfit : ℤ) (monetary : ℤ) : ℚ :=
  if 0 < monetary then (totalProfit : ℚ) / (monetary : ℚ) * 100 else 0

/-- scoring.calculate_credit_score (lines 236-253). -/
def calculate_credit_score (balance : ℤ) (dso : ℚ) : ℤ :=
  if balance ≤ 0 then 5
  else if dso ≤ 14 then 5
  else if dso ≤ 21 then 4
  else if dso ≤ 35 then 3
  else if dso ≤ 60 then 2
  else 1

/-- scoring.calculate_profit_score (lines 255-266). -/
def calculate_profit_score (marginPct : ℚ) : ℤ :=
  if 10 ≤ marginPct then 5
  else if 8 ≤ marginPct then 4
  else if 5 ≤ marginPct then 3
  else if 3 ≤ marginPct then 2
  else 1

/-- scoring.assign_segment (lines 268-290), first match wins. -/
def assign_segment (total c_score p_score rfm_score : ℤ) (balance : ℤ) : String :=
  if c_score = 1 ∧ 50000 < balance then "🚨 High Risk"
  else if c_score ≤ 2 ∧ 20000 < balance then "⚠️ Credit Risk"
  else if p_score ≤ 2 ∧ 10 ≤ rfm_score then "💸 Review Pricing"
  else if 85 ≤ total then "👑 Champions"
  else if 70 ≤ total then "💎 Loyal"
  else if 55 ≤ total then "📈 Potential"
  else if 40 ≤ total then "📉 At Risk"
  else "💤 Dormant"

/-- scoring.assign_risk_flag (lines 292-301), as the flag list. -/
def riskFlags (c_score p_score r_score : ℤ) (balance : ℤ) : List String :=
  (if c_score ≤ 2 ∧ 0 < balance then ["CREDIT"] else [])
    ++ (if p_score ≤ 2 then ["PROFIT"] else [])
    ++ (if r_score ≤ 2 then ["INACTIVE"] else [])

def riskFlagStr (flags : List String) : String :=
  if flags = [] then "OK" else String.intercalate " | " flags

/-- scoring.assign_priority (lines 303-316).  The source's substring
tests (`"🚨" in segment`, `"CREDIT" in risk`) are modelled by equality
over the finite segment-label set and membership in the flag list,
with which they coincide. -/
def assign_priority (segment : String) (flags : List String) : ℤ :=
  if segment = "🚨 High Risk" ∨ "CREDIT" ∈ flags then 1
  else if segment = "⚠️ Credit Risk" ∨ segment = "💸 Review Pricing" then 2
  else if segment = "📈 Potential" ∨ segment = "📉 At Risk" ∨ "INACTIVE" ∈ flags then 3
  else if segment = "👑 Champions" ∨ segment = "💎 Loyal" then 4
  else 5

/-- One scored customer, the columns of the returned frame (display
columns carry the final `round` of lines 194-200). -/
structure ScoreRow where
  customer_name : Option String
  customer_code : String
  Segment : String
  Priority : ℤ
  Risk_Flag : String
  Total_Score : ℤ
  RFM_Score : ℤ
  R_Score : ℤ
  F_Score : ℤ
  M_Score : ℤ
  C_Score : ℤ
  P_Score : ℤ
  recency : ℤ
  frequency : ℕ
  monetary_value : ℤ
  balance : ℤ
  total_profit : ℤ
  weekly_sales : ℚ
  monthly_sales : ℚ
  dso : ℚ
  weeks_owing : ℚ
  profit_margin_pct : ℚ
  avg_order_value : ℚ
  weeks_since_last_order : ℚ
deriving DecidableEq

def mkScoreRow (b : BaseRec) (r f m : ℤ) : ScoreRow :=
  let monetary := b.monetary_raw.getD 0
  let daysActive := max (7 : ℚ) b.days_active
  let weekly := weeklySalesOf monetary daysActive
  let dsoV := dsoOf weekly (b.balance : ℚ)
  let pct := profitMarginPct b.total_profit monetary
  let c := calculate_credit_score b.balance dsoV
  let p := calculate_profit_score pct
  let total := r * 4 + f * 3 + m * 6 + c * 4 + p * 3
  let rfm := r + f + m
  let seg := assign_segment total c p rfm b.balance
  let flags := riskFlags c p r b.balance
  { customer_name := b.customer_name
    customer_code := b.customer_code
    Segment := seg
    Priority := assign_priority seg flags
    Risk_Flag := riskFlagStr flags
    Total_Score := total
    RFM_Score := rfm
    R_Score := r
    F_Score := f
    M_Score := m
    C_Score := c
    P_Score := p
    recency := b.recency
    frequency := b.frequency
    monetary_value := monetary
    balance := b.balance
    total_profit := b.total_profit
    weekly_sales := roundQ weekly 0
    monthly_sales := roundQ (weekly * 4) 0
    dso := roundQ dsoV 0
    weeks_owing := roundQ (dsoV / 7) 1
    profit_margin_pct := roundQ pct 1
    avg_order_value := roundQ (if 0 < b.frequency then
      (monetary : ℚ) / (b.frequency : ℚ) else 0) 0
    weeks_since_last_order := roundQ ((b.recency : ℚ) / 7) 1 }

def totalDescB (a b : ScoreRow) : Bool := decide (b.Total_Score ≤ a.Total_Score)

def totalDescRel (a b : ScoreRow) : Prop := totalDescB a b = true

instance : DecidableRel totalDescRel :=
  fun a b => inferInstanceAs (Decidable (totalDescB a b = true))

instance : IsTotal ScoreRow totalDescRel where
  total := by
    intro a b
    unfold totalDescRel totalDescB
    simpa using le_total b.Total_Score a.Total_Score

instance : IsTrans ScoreRow totalDescRel where
  trans := by
    intro a b c
    unfold totalDescRel totalDescB
    simp only [decide_eq_true_eq]
    exact fun h1 h2 => le_trans h2 h1

/-- scoring.get_customer_scores on a ledger snapshot: the SQL query,
the column-wise R/F/M quintile scores, per-row credit/profit scores,
segmentation, and the final sort by `Total_Score` descending; `none`
models an uncaught exception (`create_score` raising). -/
def get_customer_scores (rows : List DetailRow) (todayJD : ℚ) :
    Option (List ScoreRow) :=
  let base := queryBase rows todayJD
  if base = [] then some []
  else
  match create_score (base.map (fun b => (b.recency : ℚ))) true,
      create_score (base.map (fun b => (b.frequency : ℚ))) false,
      create_score (base.map (fun b => (b.monetary_raw.getD 0 : ℚ))) false with
  | some rS, some fS, some mS =>
      some (List.insertionSort totalDescRel
        ((base.zip (rS.zip (fS.zip mS))).map
          (fun q => mkScoreRow q.1 q.2.1 q.2.2.1 q.2.2.2)))
  | _, _, _ => none

/-!
Claim theorems.
-/

/-- C1: the claim says the credit-side and sales-side standardizations
of lines 155-163 produce byte-identical identity strings for any
int/float/numeric-string representation of the same logical code.  The
code contradicts its own comment ("handles 1.0, 1, \"1\" all the same
way"): a float sales code keeps its float formatting.  At the float
representation of code 7 the credit side yields `"7"` while the sales
side yields `"7.0"`. -/
theorem c1_float_code_divergence :
    creditCodeStd (.vfloat 7) = some "7" ∧ salesCodeStd (.vfloat 7) = "7.0" ∧
      creditCodeStd (.vfloat 7) ≠ some (salesCodeStd (.vfloat 7)) := by
  refine ⟨by decide, by decide, by decide⟩

/-- C9: segment assignment tests `credit score == 1 and balance >
50000` first, so a customer with credit sub-score 1 and balance 60000
is classified High Risk whatever the composite score is. -/
theorem c9_high_risk_priority (total c p rfm balance : ℤ)
    (hc : c = 1) (hb : balance = 60000) :
    assign_segment total c p rfm balance = "🚨 High Risk" := by
  subst hc
  subst hb
  unfold assign_segment
  norm_num

/-- Witness for C9 at a composite score that would otherwise reach the
Champions band. -/
theorem c9_high_risk_priority_witness :
    assign_segment 100 1 5 15 60000 = "🚨 High Risk" :=
  c9_high_risk_priority 100 1 5 15 60000 rfl rfl

/-- C7: the DSO computation of scoring.py lines 132-141 stays in
`[0, 999]`, equals the clamped `balance / weekly_sales * 7` when the
weekly rate and balance are positive, and is 0 whenever the balance is
non-positive or the weekly rate is zero (in particular when
`monetary_value = 0` with a positive balance); the division is only
reached under the positivity guard. -/
theorem c7_dso_guard (monetary : ℤ) (daysRaw balance : ℚ) :
    0 ≤ dsoOf (weeklySalesOf monetary (max 7 daysRaw)) balance ∧
    dsoOf (weeklySalesOf monetary (max 7 daysRaw)) balance ≤ 999 ∧
    (0 < weeklySalesOf monetary (max 7 daysRaw) → 0 < balance →
      dsoOf (weeklySalesOf monetary (max 7 daysRaw)) balance
        = min (max (balance / weeklySalesOf monetary (max 7 daysRaw) * 7) 0) 999) ∧
    ((balance ≤ 0 ∨ weeklySalesOf monetary (max 7 daysRaw) = 0) →
      dsoOf (weeklySalesOf monetary (max 7 daysRaw)) balance = 0) := by
  refine ⟨?_, ?_, ?_, ?_⟩
  · exact le_min (le_max_right _ _) (by norm_num)
  · exact min_le_right _ _
  · intro hw hb
    unfold dsoOf
    rw [if_pos ⟨hw, hb⟩]
  · intro h
    have hcond : ¬ (0 < weeklySalesOf monetary (max 7 daysRaw) ∧ 0 < balance) := by
      rcases h with h | h
      · exact fun hc => absurd hc.2 (not_lt.mpr h)
      · exact fun hc => absurd hc.1 (by rw [h]; exact lt_irrefl 0)
    unfold dsoOf
    rw [if_neg hcond]
    norm_num

/-- Witness for C7 at `monetary_value = 0`, `balance = 500`. -/
theorem c7_dso_guard_witness :
    dsoOf (weeklySalesOf 0 (max 7 0)) 500 = 0 ∧
      0 ≤ dsoOf (weeklySalesOf 0 (max 7 0)) 500 := by
  have h := c7_dso_guard 0 0 500
  exact ⟨h.2.2.2 (Or.inr (by norm_num [weeklySalesOf])), h.1⟩

/-- The failure modes of C3: a required source file missing or
unreadable, or an empty post-standardization identity intersection
(reached with the credit standardization succeeding). -/
def reconFailure (inp : LoaderInputs) : Prop :=
  inp.credit = none ∨ inp.sales = none ∨
    (∃ craw sraw credit2, inp.credit = some craw ∧ inp.sales = some sraw ∧
      creditStdRows (creditClean craw) = some credit2 ∧
      codesIntersect credit2 (salesStdRows (salesClean sraw)) = false)

/-- C3: on any of the reconciliation failure modes (missing/unreadable
credit or sales file, or empty post-standardization identity
intersection) `load_clean_and_merge_data` returns `None` and
`update_database` returns `False` leaving the persisted ledger
unchanged. -/
theorem c3_failure_aborts (inp : LoaderInputs) (db : Option (List DetailRow))
    (h : reconFailure inp) :
    load_clean_and_merge_data inp = .noneResult ∧
      update_database inp db = some (db, false) := by
  have hload : load_clean_and_merge_data inp = .noneResult := by
    rcases h with h1 | h2 | ⟨craw, sraw, credit2, hc, hs, hstd, hint⟩
    · simp [load_clean_and_merge_data, h1]
    · rcases hcr : inp.credit with _ | craw
      · simp [load_clean_and_merge_data, hcr]
      · simp [load_clean_and_merge_data, hcr, h2]
    · simp [load_clean_and_merge_data, hc, hs, hstd, hint]
  refine ⟨hload, ?_⟩
  unfold update_database
  rw [hload]

/-- Witness for C3: a run with the credit file missing, against a
previously persisted ledger. -/
theorem c3_failure_aborts_witness :
    load_clean_and_merge_data ⟨none, none, none, 0⟩ = .noneResult ∧
      update_database ⟨none, none, none, 0⟩ (some []) = some (some [], false) :=
  c3_failure_aborts ⟨none, none, none, 0⟩ (some []) (Or.inl rfl)

theorem load_not_pair (inp : LoaderInputs) (s : List SummaryRow)
    (d : List DetailRow) : load_clean_and_merge_data inp ≠ .pair s d := by
  intro h
  unfold load_clean_and_merge_data at h
  repeat first
    | exact LoaderOutput.noConfusion h
    | split at h
    | dsimp only [] at h

/-- C5 (amended): every run of `load_clean_and_merge_data` ends in an
exception, `None`, or a single table — the transaction detail of line
417; the `(CustomerSummary[], TransactionDetail[])` pair of the spec's
contract is never returned. -/
theorem c5_single_table_only (inp : LoaderInputs) :
    (load_clean_and_merge_data inp = .exn ∨
      load_clean_and_merge_data inp = .noneResult ∨
      ∃ rows, load_clean_and_merge_data inp = .table rows) ∧
    ∀ s d, load_clean_and_merge_data inp ≠ .pair s d := by
  constructor
  · cases hout : load_clean_and_merge_data inp with
    | exn => exact Or.inl rfl
    | noneResult => exact Or.inr (Or.inl rfl)
    | table rows => exact Or.inr (Or.inr ⟨rows, rfl⟩)
    | pair s d => exact absurd hout (load_not_pair inp s d)
  · exact load_not_pair inp

/-- A concrete successful run for C5: one credit customer (code 7.0,
balance -1000), two sales lines of one invoice for the same customer,
one margin row. -/
def c5CreditRow : RawCreditRow where
  customer_code := .vfloat 7
  balance := .vint (-1000)
  last_invoice_date := .vstr "2025-01-01"

def c5SalesRow (prod : String) (amt : ℤ) : RawSalesRow where
  invoice_number := .vstr "A1"
  delivery_date := .vfloat 100
  booker_name := .vstr "B"
  customer_code := .vint 7
  customer_name := .vstr "A"
  product_name := .vstr prod
  quantity := .vint 2
  amount := .vint amt
  company := .vstr "C"
  route := .vstr "R"

def c5MarginRow : RawMarginRow where
  invoice_number := .vstr "A1"
  amount_from_margin := .vint 800
  profit := .vint 100

def c5Inp : LoaderInputs where
  credit := some [c5CreditRow]
  sales := some [c5SalesRow "P1" 500, c5SalesRow "P2" 300]
  margin := some [c5MarginRow]
  today := 110

/-- Counterexample to C5 as stated: this successful run returns the
single transaction-detail table, not a (summary, detail) pair. -/
theorem c5_counterexample :
    (load_clean_and_merge_data c5Inp).isTable = true ∧
      (load_clean_and_merge_data c5Inp).isPair = false := by
  exact ⟨by decide, by decide⟩

theorem salesAggregate_filter_len_le_one (sales : List SalesRow2) (k : String) :
    ((salesAggregate sales).filter (fun a => a.customer_code = k)).length ≤ 1 := by
  unfold salesAggregate
  rw [List.filter_map, List.length_map]
  have hpf : ((fun a : AggRow => decide (a.customer_code = k)) ∘
      (fun k0 => mkAggRow k0 (sales.filter (fun r => r.customer_code = k0))))
      = fun k0 => decide (id k0 = k) := rfl
  rw [hpf]
  exact length_filter_dedupByKeepFirst_le_one _ k

/-- C4: the customer summary (`final_df`, the left merge of the
deduplicated valid-identity credit roster with the per-customer sales
aggregates, lines 287-296) has exactly one row per credit-roster
customer, for every roster and every sales input including an empty
one: `salesAggregate` emits one row per distinct code, so the left
join neither drops nor duplicates credit rows. -/
theorem c4_summary_cardinality (credit : List CreditRow2)
    (sales : List SalesRow2) (today : ℚ) :
    (customerSummary credit (salesAggregate sales) today).length
      = credit.length := by
  induction credit with
  | nil => rfl
  | cons c t ih =>
      unfold customerSummary at ih ⊢
      rw [List.flatMap_cons, List.length_append, ih]
      have hle := salesAggregate_filter_len_le_one sales c.customer_code
      cases hf : (salesAggregate sales).filter
          (fun a => a.customer_code = c.customer_code) with
      | nil => simp [Nat.add_comm]
      | cons a t2 =>
          rw [hf] at hle
          simp only [List.length_cons] at hle
          have ht2 : t2 = [] := List.length_eq_zero.mp (by omega)
          subst ht2
          simp [Nat.add_comm]

/-- C6: when exactly two sales rows share an
`(invoice_number, product_name)` key and their delivery dates differ,
the STEP 4 deduplication (sort by date descending, drop duplicates
keeping the first, restore ascending order) keeps exactly the
later-dated row. -/
theorem c6_dedup_tiebreak (rows : List SalesRow2) (r1 r2 : SalesRow2)
    (k : Option String × Option String) (d1 d2 : ℚ)
    (h1 : r1 ∈ rows) (h2 : r2 ∈ rows)
    (hk1 : salesKey r1 = k) (hk2 : salesKey r2 = k)
    (honly : ∀ r ∈ rows, salesKey r = k → r = r1 ∨ r = r2)
    (hd1 : r1.delivery_date = some d1) (hd2 : r2.delivery_date = some d2)
    (hlt : d1 < d2) :
    (dedupSales rows).filter (fun r => salesKey r = k) = [r2] := by
  have hne : r1 ≠ r2 := by
    intro he
    rw [he, hd2] at hd1
    exact absurd (Option.some.inj hd1).symm (ne_of_lt hlt)
  have hperm : List.Perm (List.insertionSort dateDescRel rows) rows :=
    List.perm_insertionSort _ _
  have hsorted : List.Sorted dateDescRel (List.insertionSort dateDescRel rows) :=
    List.sorted_insertionSort _ _
  have hr2f : r2 ∈ (List.insertionSort dateDescRel rows).filter
      (fun r => salesKey r = k) :=
    List.mem_filter.mpr ⟨hperm.mem_iff.mpr h2, by simp [hk2]⟩
  have hfmem : ∀ r ∈ (List.insertionSort dateDescRel rows).filter
      (fun r => salesKey r = k), r = r1 ∨ r = r2 := by
    intro r hr
    have hm := hperm.subset (List.mem_of_mem_filter hr)
    have hk := (List.mem_filter.mp hr).2
    exact honly r hm (by simpa using hk)
  have hfsorted : List.Pairwise dateDescRel
      ((List.insertionSort dateDescRel rows).filter (fun r => salesKey r = k)) :=
    List.Pairwise.filter _ hsorted
  obtain ⟨h, t, hf⟩ : ∃ h t,
      (List.insertionSort dateDescRel rows).filter (fun r => salesKey r = k)
        = h :: t := by
    cases hc : (List.insertionSort dateDescRel rows).filter
        (fun r => salesKey r = k) with
    | nil => rw [hc] at hr2f; simp at hr2f
    | cons h t => exact ⟨h, t, rfl⟩
  have hh : h = r2 := by
    rcases hfmem h (by rw [hf]; exact List.mem_cons_self h t) with he1 | he2
    · subst he1
      have hr2t : r2 ∈ t := by
        rw [hf] at hr2f
        rcases List.mem_cons.mp hr2f with he | he
        · exact absurd he.symm hne
        · exact he
      have hrel : dateDescRel h r2 := by
        rw [hf] at hfsorted
        exact (List.pairwise_cons.mp hfsorted).1 r2 hr2t
      unfold dateDescRel dateDescB at hrel
      rw [hd1, hd2] at hrel
      simp only [decide_eq_true_eq] at hrel
      exact absurd hrel (not_le.mpr hlt)
    · exact he2
  have hdf : (dedupByKeepFirst salesKey (List.insertionSort dateDescRel rows)).filter
      (fun r => salesKey r = k) = [r2] := by
    rw [filter_dedupByKeepFirst_eq, hf, hh]
    rfl
  have hp : List.Perm ((dedupSales rows).filter (fun r => salesKey r = k)) [r2] := by
    unfold dedupSales
    have hstep := List.Perm.filter (fun r => decide (salesKey r = k))
      (List.perm_insertionSort dateAscRel
        (dedupByKeepFirst salesKey (List.insertionSort dateDescRel rows)))
    rw [hdf] at hstep
    exact hstep
  exact List.perm_singleton.mp hp

/-- Two concrete rows for the C6 witness: the same invoice and product
with delivery days 1 and 2. -/
def c6RowOfDate (d : ℚ) (q : ℤ) : SalesRow2 where
  invoice_number := some "INV1"
  delivery_date := some d
  booker_name := some "B"
  customer_code := "7"
  customer_name := some "A"
  product_name := some "X"
  quantity := some q
  amount := some 100
  company := some "C"
  route := some "R"

/-- Witness for C6: of the two rows only the later-dated one (day 2)
survives deduplication. -/
theorem c6_dedup_tiebreak_witness :
    (dedupSales [c6RowOfDate 1 1, c6RowOfDate 2 9]).filter
      (fun r => salesKey r = (some "INV1", some "X")) = [c6RowOfDate 2 9] :=
  c6_dedup_tiebreak [c6RowOfDate 1 1, c6RowOfDate 2 9]
    (c6RowOfDate 1 1) (c6RowOfDate 2 9) (some "INV1", some "X") 1 2
    (by decide) (by decide) (by decide) (by decide) (by decide)
    (by decide) (by decide) (by decide)

/-- A persisted transaction line for the C2 scenario: invoice INV1,
denormalized invoice profit 900 on every product line. -/
def c2Row (prod : String) (d : ℚ) : DetailRow where
  invoice_number := some "INV1"
  delivery_date := some d
  booker_name := some "B"
  customer_code := "7"
  customer_name := some "A"
  product_name := some prod
  quantity := some 1
  amount := some 100
  company := some "C"
  route := some "R"
  profit := 900
  balance := 500
  last_invoice_date := some 0

/-- A filler customer line for the C2 population.  The fillers give
the population five distinct recency values, keeping the run clear of
the unrelated small-population crash (claim C8), so the scorer
actually produces output. -/
def c2Fill (code : String) (d : ℚ) : DetailRow where
  invoice_number := some ("F" ++ code)
  delivery_date := some d
  booker_name := some "B"
  customer_code := code
  customer_name := some ("N" ++ code)
  product_name := some "P"
  quantity := some 1
  amount := some 100
  company := some "C"
  route := some "R"
  profit := 10
  balance := 0
  last_invoice_date := none

/-- The C2 ledger: customer 7's invoice INV1 has three product lines,
each carrying the denormalized invoice profit 900, on delivery days
(1, 1, 2); four filler customers complete the population. -/
def c2RowsSplitDates : List DetailRow :=
  [c2Row "P1" 1, c2Row "P2" 1, c2Row "P3" 2,
   c2Fill "1" 3, c2Fill "2" 4, c2Fill "3" 5, c2Fill "4" 6]

/-- The same ledger with all three INV1 lines on one delivery day. -/
def c2RowsSameDates : List DetailRow :=
  [c2Row "P1" 2, c2Row "P2" 2, c2Row "P3" 2,
   c2Fill "1" 3, c2Fill "2" 4, c2Fill "3" 5, c2Fill "4" 6]

/-- C2: the claim says an invoice with 3 product lines all carrying
profit 900 contributes 900 to its customer's total profit in the
scoring output regardless of the lines' delivery dates.  The scoring
query's `invoice_level` `SELECT DISTINCT` keeps `delivery_date` in the
tuple, so with delivery days (1, 1, 2) the invoice yields two rows and
the scoring output lists `total_profit = 1800` for customer 7; only
with all lines on one day does it list the claimed 900. -/
theorem c2_invoice_profit_double_count :
    (get_customer_scores c2RowsSplitDates 10).map
        (fun out => (out.filter (fun r => r.customer_code = "7")).map
          (fun r => r.total_profit)) = some [1800] ∧
      (get_customer_scores c2RowsSameDates 10).map
        (fun out => (out.filter (fun r => r.customer_code = "7")).map
          (fun r => r.total_profit)) = some [900] :=
  ⟨by decide, by decide⟩

/-!
Totality and range of `create_score` away from its crash branch: on
the forward paths and the large-population reverse path every produced
score is a label from a list contained in `[1, 5]`, and every value
falls in some bin because cut edges enclose `[min, max]` and quantile
edges start at the minimum and end at the maximum.  The
`reverse=True`, `nunique < 5` branch instead raises (claim C8).
-/

theorem countP_lt_length_of_not {p : α → Bool} :
    ∀ {l : List α} {a : α}, a ∈ l → p a = false → l.countP p < l.length := by
  intro l
  induction l with
  | nil => intro a h; simp at h
  | cons b t ih =>
      intro a ha hpa
      rcases List.mem_cons.mp ha with he | ht
      · subst he
        rw [List.countP_cons, hpa]
        simpa using Nat.lt_succ_of_le (List.countP_le_length p)
      · rw [List.countP_cons]
        have := ih ht hpa
        by_cases hb : p b = true <;> simp [hb] <;> omega

theorem getLastD_mem : ∀ (l : List α) (d : α), l ≠ [] → l.getLastD d ∈ l := by
  intro l
  induction l with
  | nil => intro d h; exact absurd rfl h
  | cons a t ih =>
      intro d _
      rw [List.getLastD_cons]
      cases t with
      | nil => simp
      | cons b t2 => exact List.mem_cons_of_mem a (ih a (by simp))

theorem getLastD_irrel : ∀ (l : List α) (d1 d2 : α), l ≠ [] →
    l.getLastD d1 = l.getLastD d2 := by
  intro l
  induction l with
  | nil => intro d1 d2 h; exact absurd rfl h
  | cons a t ih =>
      intro d1 d2 _
      rw [List.getLastD_cons, List.getLastD_cons]

theorem tail_getLastD (l : List α) (d : α) (h : l.tail ≠ []) :
    l.tail.getLastD d = l.getLastD d := by
  cases l with
  | nil => simp at h
  | cons a t =>
      simp only [List.tail_cons] at h ⊢
      rw [List.getLastD_cons]
      exact getLastD_irrel t d a h

theorem linspaceQ_length (lo hi : ℚ) (m : ℕ) :
    (linspaceQ lo hi m).length = m + 1 := by
  unfold linspaceQ
  rw [List.length_map, List.length_range]

theorem linspaceQ_head (lo hi : ℚ) (m : ℕ) : (linspaceQ lo hi m).headD 0 = lo := by
  unfold linspaceQ
  rw [List.range_succ_eq_map]
  simp

theorem linspaceQ_getLast (lo hi : ℚ) (m : ℕ) (hm : m ≠ 0) :
    (linspaceQ lo hi m).getLastD 0 = hi := by
  unfold linspaceQ
  rw [List.range_succ, List.map_append]
  simp only [List.map_cons, List.map_nil]
  rw [List.getLastD_eq_getLast?, List.getLast?_concat]
  have hmq : (m : ℚ) ≠ 0 := Nat.cast_ne_zero.mpr hm
  field_simp

theorem cutIntBins_tail_length (xs : List ℚ) (m : ℕ) :
    (cutIntBins xs m).tail.length = m := by
  unfold cutIntBins
  by_cases h : minQ xs = maxQ xs
  · rw [if_pos h, List.length_tail, linspaceQ_length]
    omega
  · rw [if_neg h]
    have hlen := linspaceQ_length (minQ xs) (maxQ xs) m
    cases hl : linspaceQ (minQ xs) (maxQ xs) m with
    | nil => rw [hl] at hlen; simp at hlen
    | cons e rest =>
        rw [hl] at hlen
        simp only [List.length_cons] at hlen
        simp only [List.tail_cons]
        omega

theorem cutIntBins_head_lt {xs : List ℚ} {x : ℚ} (hx : x ∈ xs) (m : ℕ) :
    (cutIntBins xs m).headD 0 < x := by
  have hmin : minQ xs ≤ x := minQ_le_of_mem hx
  unfold cutIntBins
  by_cases h : minQ xs = maxQ xs
  · rw [if_pos h, linspaceQ_head]
    have hpos : (0:ℚ) < (if minQ xs = 0 then 1/1000 else |minQ xs| / 1000) := by
      by_cases h0 : minQ xs = 0
      · rw [if_pos h0]; norm_num
      · rw [if_neg h0]
        exact div_pos (abs_pos.mpr h0) (by norm_num)
    linarith
  · rw [if_neg h]
    have hlt : minQ xs < maxQ xs :=
      lt_of_le_of_ne (le_trans hmin (le_maxQ_of_mem hx)) h
    have hadj : (0:ℚ) < (maxQ xs - minQ xs) / 1000 := by
      apply div_pos <;> linarith
    cases hl : linspaceQ (minQ xs) (maxQ xs) m with
    | nil =>
        have hlen := linspaceQ_length (minQ xs) (maxQ xs) m
        rw [hl] at hlen; simp at hlen
    | cons e rest =>
        have he : e = minQ xs := by
          have := linspaceQ_head (minQ xs) (maxQ xs) m
          rw [hl] at this
          simpa using this
        subst he
        simp only [List.headD_cons]
        linarith

theorem le_cutIntBins_getLast {xs : List ℚ} {x : ℚ} (hx : x ∈ xs) {m : ℕ}
    (hm : m ≠ 0) : x ≤ (cutIntBins xs m).getLastD 0 := by
  have hmax : x ≤ maxQ xs := le_maxQ_of_mem hx
  unfold cutIntBins
  by_cases h : minQ xs = maxQ xs
  · rw [if_pos h, linspaceQ_getLast _ _ _ hm]
    have hpos : (0:ℚ) ≤ (if maxQ xs = 0 then 1/1000 else |maxQ xs| / 1000) := by
      by_cases h0 : maxQ xs = 0
      · rw [if_pos h0]; norm_num
      · rw [if_neg h0]
        exact le_of_lt (div_pos (abs_pos.mpr h0) (by norm_num))
    linarith
  · rw [if_neg h]
    cases hl : linspaceQ (minQ xs) (maxQ xs) m with
    | nil =>
        have hlen := linspaceQ_length (minQ xs) (maxQ xs) m
        rw [hl] at hlen; simp at hlen
    | cons e rest =>
        have hrest : rest ≠ [] := by
          have hlen := linspaceQ_length (minQ xs) (maxQ xs) m
          rw [hl] at hlen
          simp only [List.length_cons] at hlen
          intro hre
          rw [hre] at hlen
          simp at hlen
          omega
        rw [List.getLastD_cons]
        have h2 : rest.getLastD (e - (maxQ xs - minQ xs) / 1000)
            = (e :: rest).getLastD 0 := by
          rw [List.getLastD_cons]
          exact getLastD_irrel rest _ e hrest
        rw [h2, ← hl, linspaceQ_getLast _ _ _ hm]
        exact hmax

theorem binAssign_cut {xs : List ℚ} {m : ℕ} {x : ℚ} (hx : x ∈ xs) (hm : m ≠ 0) :
    ∃ i, binAssign (cutIntBins xs m) x = some i ∧ i < m := by
  have hhead := cutIntBins_head_lt hx m
  have hlast := le_cutIntBins_getLast hx hm
  unfold binAssign
  rw [if_neg (by push_neg; exact ⟨le_of_lt hhead, hlast⟩)]
  refine ⟨_, rfl, ?_⟩
  have htl : (cutIntBins xs m).tail.length = m := cutIntBins_tail_length xs m
  have htne : (cutIntBins xs m).tail ≠ [] := by
    intro he
    rw [he] at htl
    simp at htl
    omega
  have hmem : (cutIntBins xs m).tail.getLastD 0 ∈ (cutIntBins xs m).tail :=
    getLastD_mem _ 0 htne
  have hfail : (decide ((cutIntBins xs m).tail.getLastD 0 < x)) = false := by
    simp only [decide_eq_false_iff_not, not_lt]
    rw [tail_getLastD _ _ htne]
    exact hlast
  have := @countP_lt_length_of_not ℚ (fun e => decide (e < x)) _ _ hmem hfail
  omega

theorem sorted_head_le {l : List ℚ} (hs : List.Sorted (· ≤ ·) l) {x : ℚ}
    (hx : x ∈ l) : l.headD 0 ≤ x := by
  cases l with
  | nil => simp at hx
  | cons a t =>
      rcases List.mem_cons.mp hx with he | ht
      · simp [he]
      · exact (List.sorted_cons.mp hs).1 x ht

theorem sorted_le_getLastD {l : List ℚ} (hs : List.Sorted (· ≤ ·) l) {x : ℚ}
    (hx : x ∈ l) : x ≤ l.getLastD 0 := by
  induction l with
  | nil => simp at hx
  | cons a t ih =>
      rw [List.getLastD_cons]
      cases ht : t with
      | nil =>
          subst ht
          simp at hx
          simp [hx]
      | cons b t2 =>
          have htne : t ≠ [] := by rw [ht]; simp
          rw [← ht, getLastD_irrel t a 0 htne]
          rcases List.mem_cons.mp hx with he | hm
          · subst he
            have hgl : t.getLastD 0 ∈ t := getLastD_mem t 0 htne
            exact (List.sorted_cons.mp hs).1 _ hgl
          · exact ih (List.sorted_cons.mp hs).2 hm

theorem getD_length_sub_one_eq_getLastD :
    ∀ (l : List ℚ), l ≠ [] → l.getD (l.length - 1) 0 = l.getLastD 0 := by
  intro l
  induction l with
  | nil => intro h; exact absurd rfl h
  | cons a t ih =>
      intro _
      by_cases htne : t = []
      · subst htne; rfl
      · rw [List.getLastD_cons, getLastD_irrel t a 0 htne]
        have hlen : (a :: t).length - 1 = t.length := by simp
        rw [hlen]
        have hstep : (a :: t).getD t.length 0 = t.getD (t.length - 1) 0 := by
          cases tt : t with
          | nil => exact absurd tt htne
          | cons b t2 => simp [List.getD_cons_succ]
        rw [hstep]
        exact ih htne

theorem quantileOf_zero_le {xs : List ℚ} {x : ℚ} (hx : x ∈ xs) :
    quantileOf xs 0 ≤ x := by
  unfold quantileOf
  have hperm := List.perm_insertionSort (· ≤ · : ℚ → ℚ → Prop) xs
  have hxs : x ∈ List.insertionSort (· ≤ ·) xs := hperm.mem_iff.mpr hx
  have hne : List.insertionSort (· ≤ ·) xs ≠ [] := by
    intro he
    rw [he] at hxs
    simp at hxs
  have hn0 : (List.insertionSort (· ≤ ·) xs).length ≠ 0 := by
    simpa using fun h => hne (List.length_eq_zero.mp h)
  rw [if_neg hn0]
  have hsorted : List.Sorted (· ≤ ·) (List.insertionSort (· ≤ ·) xs) :=
    List.sorted_insertionSort _ _
  have hhead := sorted_head_le hsorted hxs
  simp only [zero_mul, Int.floor_zero, Int.toNat_zero, Int.cast_zero, sub_zero,
    zero_mul, add_zero]
  cases hc : List.insertionSort (· ≤ ·) xs with
  | nil => exact absurd hc hne
  | cons a t =>
      rw [hc] at hhead
      simpa using hhead

theorem le_quantileOf_one {xs : List ℚ} {x : ℚ} (hx : x ∈ xs) :
    x ≤ quantileOf xs 1 := by
  unfold quantileOf
  have hperm := List.perm_insertionSort (· ≤ · : ℚ → ℚ → Prop) xs
  have hxs : x ∈ List.insertionSort (· ≤ ·) xs := hperm.mem_iff.mpr hx
  have hne : List.insertionSort (· ≤ ·) xs ≠ [] := by
    intro he
    rw [he] at hxs
    simp at hxs
  have hn0 : (List.insertionSort (· ≤ ·) xs).length ≠ 0 := by
    simpa using fun h => hne (List.length_eq_zero.mp h)
  rw [if_neg hn0]
  have hsorted : List.Sorted (· ≤ ·) (List.insertionSort (· ≤ ·) xs) :=
    List.sorted_insertionSort _ _
  set s := List.insertionSort (· ≤ ·) xs with hs
  set n := s.length with hnn
  have hn1 : 1 ≤ n := Nat.one_le_iff_ne_zero.mpr hn0
  have hpos : (1 : ℚ) * ((n : ℚ) - 1) = (((n : ℤ) - 1 : ℤ) : ℚ) := by push_cast; ring
  dsimp only []
  rw [hpos, Int.floor_intCast]
  have htn : ((n : ℤ) - 1).toNat = n - 1 := by omega
  rw [htn]
  have hfrac : (((n : ℤ) - 1 : ℤ) : ℚ) - (((n : ℤ) - 1 : ℤ) : ℚ) = 0 := by ring
  rw [hfrac]
  simp only [zero_mul, add_zero]
  rw [getD_length_sub_one_eq_getLastD s hne]
  exact sorted_le_getLastD hsorted hxs

theorem binAssign_quantile {xs : List ℚ} {x : ℚ} (hx : x ∈ xs) :
    ∃ i, binAssign (quantileEdges xs) x = some i ∧ i < 5 := by
  have h0 := quantileOf_zero_le hx
  have h1 := le_quantileOf_one hx
  unfold binAssign
  have hhead : (quantileEdges xs).headD 0 = quantileOf xs 0 := rfl
  have hlast : (quantileEdges xs).getLastD 0 = quantileOf xs 1 := rfl
  rw [if_neg (by rw [hhead, hlast]; push_neg; exact ⟨h0, h1⟩)]
  refine ⟨_, rfl, ?_⟩
  have hmem : quantileOf xs 1 ∈ (quantileEdges xs).tail := by
    unfold quantileEdges
    simp
  have hfail : (decide (quantileOf xs 1 < x)) = false := by
    simp only [decide_eq_false_iff_not, not_lt]
    exact h1
  have hcount := @countP_lt_length_of_not ℚ (fun e => decide (e < x)) _ _ hmem hfail
  have hlen : (quantileEdges xs).tail.length = 5 := rfl
  omega

theorem rankFirst_length (xs : List ℚ) : (rankFirst xs).length = xs.length := by
  unfold rankFirst
  rw [List.length_map, List.length_range]

theorem mapO_bin_total (lst : List ℚ) {edges : List ℚ} {labels : List ℤ}
    (hbin : ∀ x ∈ lst, ∃ i, binAssign edges x = some i ∧ i < labels.length)
    (hlab : ∀ i, i < labels.length → ∃ y, labels[i]? = some y ∧ 1 ≤ y ∧ y ≤ 5) :
    ∃ ys, mapO (fun r => (binAssign edges r).bind (fun i => labels[i]?)) lst
        = some ys ∧ ys.length = lst.length ∧ ∀ y ∈ ys, 1 ≤ y ∧ y ≤ 5 := by
  apply mapO_eq_some_of_forall
  intro a ha
  obtain ⟨i, hb, hi⟩ := hbin a ha
  obtain ⟨y, hy, h1, h5⟩ := hlab i hi
  refine ⟨y, ?_, h1, h5⟩
  rw [hb]
  simpa using hy

theorem create_score_rev_small_none (xs : List ℚ) (h : nuniqueQ xs < 5) :
    create_score xs true = none := by
  unfold create_score
  dsimp only []
  rw [if_pos h]
  rfl

theorem create_score_total (xs : List ℚ) (reverse : Bool)
    (h : reverse = false ∨ 5 ≤ nuniqueQ xs) :
    ∃ ys, create_score xs reverse = some ys ∧ ys.length = xs.length ∧
      ∀ y ∈ ys, 1 ≤ y ∧ y ≤ 5 := by
  unfold create_score
  dsimp only []
  by_cases hn : nuniqueQ xs < 5
  · rw [if_pos hn]
    have hrev : reverse = false := by
      rcases h with h | h
      · exact h
      · omega
    subst hrev
    simp only [Bool.false_eq_true, if_false]
    have hlabLen : ((List.range (min (nuniqueQ xs) 5)).map
        (fun (i : ℕ) => (i : ℤ) + 1)).length = min (nuniqueQ xs) 5 := by
      simp
    have hlab : ∀ i, i < ((List.range (min (nuniqueQ xs) 5)).map
          (fun (i : ℕ) => (i : ℤ) + 1)).length →
        ∃ y, ((List.range (min (nuniqueQ xs) 5)).map
          (fun (i : ℕ) => (i : ℤ) + 1))[i]? = some y ∧ 1 ≤ y ∧ y ≤ 5 := by
      rw [hlabLen]
      have hm5 : min (nuniqueQ xs) 5 ≤ 5 := Nat.min_le_right _ _
      intro i hi
      refine ⟨(i : ℤ) + 1, ?_, by omega, by omega⟩
      simp [List.getElem?_range hi]
    by_cases hxe : xs = []
    · subst hxe
      exact ⟨[], rfl, rfl, by simp⟩
    · have hn1 : 1 ≤ nuniqueQ xs := by
        have hd : xs.dedup ≠ [] := fun h2 => hxe ((List.dedup_eq_nil xs).mp h2)
        unfold nuniqueQ
        cases hde : xs.dedup with
        | nil => exact absurd hde hd
        | cons _ _ => simp [hde]
      have hm : min (nuniqueQ xs) 5 ≠ 0 := by omega
      obtain ⟨ys, hmo, hlen, hb⟩ := mapO_bin_total (rankFirst xs)
        (fun x hxr => by
          obtain ⟨i, hbi, him⟩ := binAssign_cut hxr hm
          exact ⟨i, hbi, by rw [hlabLen]; exact him⟩)
        hlab
      exact ⟨ys, hmo, by rw [hlen, rankFirst_length], hb⟩
  · rw [if_neg hn]
    have hlabLen5 : (if reverse then ([5, 4, 3, 2, 1] : List ℤ)
        else ([1, 2, 3, 4, 5] : List ℤ)).length = 5 := by
      cases reverse <;> rfl
    have hlab5 : ∀ i, i < (if reverse then ([5, 4, 3, 2, 1] : List ℤ)
          else ([1, 2, 3, 4, 5] : List ℤ)).length →
        ∃ y, (if reverse then ([5, 4, 3, 2, 1] : List ℤ)
          else ([1, 2, 3, 4, 5] : List ℤ))[i]? = some y ∧ 1 ≤ y ∧ y ≤ 5 := by
      rw [hlabLen5]
      cases reverse
      · intro i hi
        interval_cases i <;> exact ⟨_, rfl, by decide, by decide⟩
      · intro i hi
        interval_cases i <;> exact ⟨_, rfl, by decide, by decide⟩
    have hserLen : (if reverse then xs else rankFirst xs).length = xs.length := by
      cases reverse
      · simp [rankFirst_length]
      · simp
    by_cases hd : (quantileEdges (if reverse then xs else rankFirst xs)).dedup.length = 6
    · rw [if_pos hd]
      obtain ⟨ys, hmo, hlen, hb⟩ := mapO_bin_total (if reverse then xs else rankFirst xs)
        (fun x hxr => by
          obtain ⟨i, hbi, him⟩ := binAssign_quantile hxr
          exact ⟨i, hbi, by rw [hlabLen5]; exact him⟩)
        hlab5
      exact ⟨ys, hmo, by rw [hlen, hserLen], hb⟩
    · rw [if_neg hd]
      obtain ⟨ys, hmo, hlen, hb⟩ := mapO_bin_total (rankFirst xs)
        (fun x hxr => by
          obtain ⟨i, hbi, him⟩ := binAssign_cut hxr (by norm_num : (5:ℕ) ≠ 0)
          exact ⟨i, hbi, by rw [hlabLen5]; exact him⟩)
        hlab5
      exact ⟨ys, hmo, by rw [hlen, rankFirst_length], hb⟩

theorem calculate_credit_score_range (balance : ℤ) (dso : ℚ) :
    1 ≤ calculate_credit_score balance dso ∧ calculate_credit_score balance dso ≤ 5 := by
  unfold calculate_credit_score
  split_ifs <;> norm_num

theorem calculate_profit_score_range (pct : ℚ) :
    1 ≤ calculate_profit_score pct ∧ calculate_profit_score pct ≤ 5 := by
  unfold calculate_profit_score
  split_ifs <;> norm_num

theorem queryBase_code_has_dated_row {rows : List DetailRow} {today : ℚ}
    {b : BaseRec} (hb : b ∈ queryBase rows today) :
    ∃ r, r ∈ rows ∧ r.customer_code = b.customer_code ∧
      r.delivery_date.isSome = true := by
  unfold queryBase at hb
  dsimp only [] at hb
  have hb2 := List.mem_of_mem_filter hb
  obtain ⟨k, hk, hbk⟩ := List.mem_map.mp hb2
  obtain ⟨ip, hip, hkip⟩ := List.mem_map.mp hk
  have hip2 := mem_of_mem_dedupByKeepFirst hip
  obtain ⟨i0, hi0, hipm⟩ := List.mem_flatMap.mp hip2
  obtain ⟨p0, hp0, hipeq⟩ := List.mem_map.mp hipm
  unfold invoiceLevel at hi0
  have hi0b := mem_of_mem_dedupByKeepFirst hi0
  obtain ⟨r, hr, hgr⟩ := List.mem_filterMap.mp hi0b
  cases hdd : r.delivery_date with
  | none =>
      rw [hdd] at hgr
      simp at hgr
  | some d =>
      rw [hdd] at hgr
      simp only [Option.some.injEq] at hgr
      refine ⟨r, List.mem_of_mem_filter hr, ?_, by simp [hdd]⟩
      have hbc : b.customer_code = k.2 := by rw [← hbk]; rfl
      have hk2 : k.2 = ip.1.customer_code := by rw [← hkip]
      have hip1 : ip.1 = i0 := by rw [← hipeq]
      have hic : i0.customer_code = r.customer_code := by rw [← hgr]
      rw [hbc, hk2, hip1, hic]

/-- C10: transaction lines with a null delivery date contribute nothing
to scoring (both CTEs filter them out, so the result over any ledger
equals the result over its non-null-date lines), and a customer all of
whose lines lack a delivery date gets no score record at all. -/
theorem c10_null_dates_ignored (rows : List DetailRow) (today : ℚ) :
    get_customer_scores rows today
        = get_customer_scores (rows.filter (fun r => r.delivery_date.isSome)) today
      ∧ ∀ code : String,
        (∀ r ∈ rows, r.customer_code = code → r.delivery_date = none) →
        ∀ out, get_customer_scores rows today = some out →
          ∀ rec ∈ out, rec.customer_code ≠ code := by
  have hqb : queryBase rows today
      = queryBase (rows.filter (fun r => r.delivery_date.isSome)) today := by
    unfold queryBase
    rw [List.filter_filter]
    have hpp : (fun r : DetailRow =>
        r.delivery_date.isSome && r.delivery_date.isSome)
        = fun r : DetailRow => r.delivery_date.isSome := by
      funext r
      exact Bool.and_self _
    rw [hpp]
  constructor
  · unfold get_customer_scores
    rw [hqb]
  · intro code hnone out hout rec hrec hcode
    obtain ⟨fS, hf, _, _⟩ := create_score_total
      ((queryBase rows today).map (fun b => (b.frequency : ℚ))) false (Or.inl rfl)
    obtain ⟨mS, hm, _, _⟩ := create_score_total
      ((queryBase rows today).map (fun b => (b.monetary_raw.getD 0 : ℚ))) false
      (Or.inl rfl)
    unfold get_customer_scores at hout
    dsimp only [] at hout
    by_cases hbase : queryBase rows today = []
    · rw [if_pos hbase] at hout
      simp only [Option.some.injEq] at hout
      subst hout
      simp at hrec
    · rw [if_neg hbase] at hout
      cases hR : create_score
          ((queryBase rows today).map (fun b => (b.recency : ℚ))) true with
      | none =>
          rw [hR] at hout
          simp at hout
      | some rS =>
          rw [hR, hf, hm] at hout
          simp only [Option.some.injEq] at hout
          subst hout
          have hrec2 : rec ∈ ((queryBase rows today).zip (rS.zip (fS.zip mS))).map
              (fun q => mkScoreRow q.1 q.2.1 q.2.2.1 q.2.2.2) :=
            (List.perm_insertionSort totalDescRel _).mem_iff.mp hrec
          obtain ⟨q, hq, hqe⟩ := List.mem_map.mp hrec2
          rcases q with ⟨b, r, f, m⟩
          have hz1 := List.of_mem_zip hq
          obtain ⟨r0, hr0mem, hr0code, hr0some⟩ :=
            queryBase_code_has_dated_row hz1.1
          have hbcode : rec.customer_code = b.customer_code := by rw [← hqe]; rfl
          have hdn : r0.delivery_date = none :=
            hnone r0 hr0mem (by rw [hr0code, ← hbcode, hcode])
          rw [hdn] at hr0some
          simp at hr0some

/-- A ledger line whose delivery date is null, for the C10 witness. -/
def c10Row : DetailRow where
  invoice_number := some "Z1"
  delivery_date := none
  booker_name := some "B"
  customer_code := "9"
  customer_name := some "N"
  product_name := some "P"
  quantity := some 1
  amount := some 500
  company := some "C"
  route := some "R"
  profit := 0
  balance := 0
  last_invoice_date := none

/-- Witness for C10: a customer with one positive-amount line and no
delivery date is invisible to scoring. -/
theorem c10_null_dates_ignored_witness :
    get_customer_scores [c10Row] 0
        = get_customer_scores ([c10Row].filter (fun r => r.delivery_date.isSome)) 0
      ∧ ∀ out, get_customer_scores [c10Row] 0 = some out →
        ∀ rec ∈ out, rec.customer_code ≠ "9" := by
  have h := c10_null_dates_ignored [c10Row] 0
  exact ⟨h.1, fun out hout rec hrec => h.2 "9" (by decide) out hout rec hrec⟩

/-- A one-customer roster row for the C4 witness. -/
def c4CreditRow : CreditRow2 where
  customer_code := "7"
  balance := some 5
  last_invoice_date := none

/-- Witness for C4 at a one-customer roster and empty sales. -/
theorem c4_summary_cardinality_witness :
    (customerSummary [c4CreditRow] (salesAggregate []) 0).length
      = ([c4CreditRow] : List CreditRow2).length :=
  c4_summary_cardinality [c4CreditRow] [] 0

/-- Witness for C5 (amended) at the concrete successful run. -/
theorem c5_single_table_only_witness :
    load_clean_and_merge_data c5Inp ≠ LoaderOutput.pair [] [] :=
  (c5_single_table_only c5Inp).2 [] []

/-- A ledger line for the C8 witness population. -/
def c8Row (code : String) (amt : ℤ) (d : ℚ) : DetailRow where
  invoice_number := some ("I" ++ code)
  delivery_date := some d
  booker_name := some "B"
  customer_code := code
  customer_name := some ("N" ++ code)
  product_name := some "P"
  quantity := some 1
  amount := some amt
  company := some "C"
  route := some "R"
  profit := 10
  balance := 100
  last_invoice_date := none

/-- C8: the claim says scoring a non-empty population — including one
of only 3 customers, or a metric with fewer than 5 distinct values —
never raises and yields sub-scores in 1-5.  The code crashes instead:
whenever the population has fewer than 5 distinct recency values,
`create_score(df['recency'], reverse=True)` evaluates
`labels=range(5, 5-min(series.nunique()), -1)` (scoring.py line 222),
whose single-argument `min` raises an uncaught `TypeError`.  At this
concrete 3-customer population the scorer aborts (`none`) instead of
returning scores. -/
theorem c8_small_population_raises :
    get_customer_scores [c8Row "1" 100 1, c8Row "2" 250 2, c8Row "3" 400 3] 10
      = none := by
  decide
